import Mathlib

/-!
# Verification of the trip-query understanding pipeline

Shallow embedding of `src/query_to_structured_output_with_geographic_locations.py`.

Conventions of the embedding:
* Python strings are modelled as `String` / `List Char`; `str.lower()` as a
  character-wise `Char.toLower` (the queries and patterns are ASCII, where the
  two agree), `str.strip()` as dropping Python whitespace from both ends.
* The regular expressions of the source are small and fixed, so each one is
  embedded directly by a scanning function with Python `re` semantics:
  `re.search` scans positions left to right (`scanFirst`), a non-greedy
  capture `([\w\s]+?)` followed by a literal alternative takes the shortest
  nonempty run that is followed by a stop token (`minCap`), a greedy capture
  takes the maximal run (`List.takeWhile`), and `re.findall` scans
  non-overlapping matches left to right (`findAll`).  The character class
  `\w` is `[A-Za-z0-9_]` and `\s` is Python whitespace (ASCII inputs).
* The HTTP collaborators (HERE geocoding, discover search, routing) and the
  spaCy entity tagger are consumed behind narrow interfaces; they are
  modelled as function parameters (oracles) and only the consuming logic of
  the source is embedded.
* Python floats are carried through the pipeline without arithmetic; they are
  modelled as exact rationals.
* The `IndexError` that `place.get("openingHours", [{}])[0]` can raise is
  modelled by `Except String`; every other function in scope is total, and a
  Python function that cannot raise is embedded as a plain function.
-/

/-! ## Characters: the classes used by the source's regexes -/

/-- Python whitespace characters (the `\s` class and `str.strip`), restricted
to ASCII as in the queries this program handles. -/
def isPySpace (c : Char) : Bool :=
  (c = ' ') || (c = '\t') || (c = '\n') || (c = '\r') || (c = '\x0b') || (c = '\x0c')

/-- The `\w` regex class: letters, digits and underscore (ASCII). -/
def isWordChar (c : Char) : Bool :=
  c.isAlphanum || (c = '_')

/-- The `[\w\s]` class of the start/end and waypoint captures. -/
def wordSpaceChar (c : Char) : Bool :=
  isWordChar c || isPySpace c

/-- The `[\w\s,]` class of the night-stay and via captures. -/
def wordSpaceCommaChar (c : Char) : Bool :=
  wordSpaceChar c || (c = ',')

/-- `query.lower()`: character-wise lower casing. -/
def pyLower (l : List Char) : List Char :=
  l.map Char.toLower

/-- `str.strip()`: drop whitespace from both ends. -/
def pyStrip (l : List Char) : List Char :=
  ((l.dropWhile isPySpace).reverse.dropWhile isPySpace).reverse

/-! ## Generic regex building blocks -/

/-- `re.search` position scanning: try a match at every position left to
right, first success wins.  The final empty suffix is also tried, as
`re.search` does. -/
def scanFirst {α : Type} (tryAt : List Char → Option α) : List Char → Option α
  | [] => tryAt []
  | c :: rest =>
    match tryAt (c :: rest) with
    | some r => some r
    | none => scanFirst tryAt rest

/-- Non-greedy capture `(X+?)` before a trailing context: take allowed
characters one at a time, stopping at the first point where the trailing
context `stop` matches; fail on a disallowed character before that point. -/
def minCap (allowed : Char → Bool) (stop : List Char → Bool) : List Char → Option (List Char)
  | [] => none
  | c :: rest =>
    if allowed c then
      if stop rest then some [c]
      else (minCap allowed stop rest).map (fun y => c :: y)
    else none

/-- One pattern of the shape `literal (class+?)` followed by a trailing
context: the shape of both captures of `extract_start_end_locations`. -/
def tryCap (pref : List Char) (allowed : Char → Bool) (stop : List Char → Bool)
    (s : List Char) : Option (List Char) :=
  if pref.isPrefixOf s then minCap allowed stop (s.drop pref.length) else none

/-- One pattern of the shape `(?:lit1|lit2|...) (class+)` with a greedy
capture: the shape of the four waypoint patterns.  Alternatives are tried in
order; the capture is the maximal nonempty run of allowed characters.
Returns the capture and the remainder after the whole match. -/
def tryPrefCap (prefs : List (List Char)) (allowed : Char → Bool)
    (s : List Char) : Option (List Char × List Char) :=
  match prefs with
  | [] => none
  | p :: ps =>
    if p.isPrefixOf s then
      let r := s.drop p.length
      let cap := r.takeWhile allowed
      if cap.isEmpty then tryPrefCap ps allowed s
      else some (cap, r.drop cap.length)
    else tryPrefCap ps allowed s

/-- `re.findall` scanning: non-overlapping matches left to right.  The fuel
starts at the string's length; every pattern used here consumes at least one
character per match, so the fuel never runs out before the scan ends. -/
def findAllGo (tryAt : List Char → Option (List Char × List Char)) :
    Nat → List Char → List (List Char)
  | 0, _ => []
  | _ + 1, [] => []
  | fuel + 1, c :: rest =>
    match tryAt (c :: rest) with
    | some (cap, rem) => cap :: findAllGo tryAt fuel rem
    | none => findAllGo tryAt fuel rest

/-- `re.findall pattern s`. -/
def findAll (tryAt : List Char → Option (List Char × List Char)) (s : List Char) :
    List (List Char) :=
  findAllGo tryAt s.length s

/-! ## Start/end extractor (`extract_start_end_locations`) -/

/-- The trailing context of the start capture: the literal `" to"` of
`r"from ([\w\s]+?) to"`. -/
def startStopTok (r : List Char) : Bool :=
  (" to").data.isPrefixOf r

/-- The trailing context of the end capture: the alternatives
`(,|\.| with| but| and|$)` of `r"to ([\w\s]+?)(,|\.| with| but| and|$)"`. -/
def endStopTok (r : List Char) : Bool :=
  ((",").data.isPrefixOf r) || ((".").data.isPrefixOf r) ||
  ((" with").data.isPrefixOf r) || ((" but").data.isPrefixOf r) ||
  ((" and").data.isPrefixOf r) || r.isEmpty

/-- A match attempt of `r"from ([\w\s]+?) to"` at one position. -/
def fromToTry (s : List Char) : Option (List Char) :=
  tryCap (("from ").data) wordSpaceChar startStopTok s

/-- A match attempt of `r"to ([\w\s]+?)(,|\.| with| but| and|$)"` at one
position. -/
def toTry (s : List Char) : Option (List Char) :=
  tryCap (("to ").data) wordSpaceChar endStopTok s

/-- `re.search(r"from ([\w\s]+?) to", query.lower())`: the raw group 1. -/
def start_capture (q : String) : Option (List Char) :=
  scanFirst fromToTry (pyLower q.data)

/-- `re.search(r"to ([\w\s]+?)(,|\.| with| but| and|$)", query.lower())`:
the raw group 1.  Note this search is independent of the start search: it
finds the first `"to "` anywhere in the lowered query. -/
def end_capture (q : String) : Option (List Char) :=
  scanFirst toTry (pyLower q.data)

/-- `extract_start_end_locations` (source lines 175-180). -/
def extract_start_end_locations (q : String) : String × Option String :=
  ( match start_capture q with
    | some m => String.mk (pyStrip m)
    | none => "current location",
    (end_capture q).map (fun m => String.mk (pyStrip m)) )

/-! ## Waypoint extractor (`extract_waypoints`) -/

/-- The four waypoint trigger patterns, in the source's fixed order:
`stop at ([\w\s]+)`, `night stay (?:at|in) ([\w\s,]+)`, `via ([\w\s,]+)`,
`quick stop at ([\w\s]+)`. -/
def waypoint_patterns : List (List (List Char) × (Char → Bool)) :=
  [ ([("stop at ").data], wordSpaceChar),
    ([("night stay at ").data, ("night stay in ").data], wordSpaceCommaChar),
    ([("via ").data], wordSpaceCommaChar),
    ([("quick stop at ").data], wordSpaceChar) ]

/-- The scan of `re.split(r",|and", s)`, with fuel: split at every comma or
(substring) `"and"`, alternatives tried in that order at each position.
Every step consumes at least one character, so fuel equal to the string's
length is enough. -/
def splitCommaAndGo : Nat → List Char → List (List Char)
  | 0, _ => [[]]
  | _ + 1, [] => [[]]
  | fuel + 1, c :: rest =>
    if c = ',' then [] :: splitCommaAndGo fuel rest
    else if ("and").data.isPrefixOf (c :: rest) then [] :: splitCommaAndGo fuel (rest.drop 2)
    else
      match splitCommaAndGo fuel rest with
      | [] => [[c]]
      | h :: t => (c :: h) :: t

/-- `re.split(r",|and", s)`. -/
def splitCommaAnd (l : List Char) : List (List Char) :=
  splitCommaAndGo l.length l

/-- `extract_waypoints` (source lines 117-132): for each pattern in order,
for each match in scan order, extend the accumulator with the stripped
pieces of the comma/"and" split of the captured list. -/
def extract_waypoints (q : String) : List String :=
  waypoint_patterns.foldl
    (fun acc pr =>
      (findAll (tryPrefCap pr.1 pr.2) (pyLower q.data)).foldl
        (fun acc2 m => acc2 ++ (splitCommaAnd m).map (fun p => String.mk (pyStrip p)))
        acc)
    []

/-- Specification-side view of one waypoint pattern: the stripped split
pieces of every capture, in match order. -/
def pattern_waypoints (lq : List Char) (pr : List (List Char) × (Char → Bool)) :
    List String :=
  ((findAll (tryPrefCap pr.1 pr.2) lq).map
    (fun m => (splitCommaAnd m).map (fun p => String.mk (pyStrip p)))).flatten

/-! ## Intent classifier (`extract_intents`) -/

/-- The fixed intent table of the source, in its insertion order. -/
def intent_keywords : List (String × List String) :=
  [ ("Basic Navigation", ["navigate", "route", "direction", "way to reach", "go to"]),
    ("Multi-Stop", ["multi-stop", "stops at", "via", "passing through", "multiple stops", "with stops"]),
    ("Time-Constrained", ["arrive by", "reach by", "leave at", "depart at", "by", "before", "after", "sharp"]),
    ("Traffic-Aware", ["avoid traffic", "traffic-free", "least traffic", "no congestion"]),
    ("Scenic Routing", ["scenic", "beautiful", "picturesque", "scenery"]),
    ("Fuel-Efficient", ["fuel-efficient", "save fuel", "economic route"]),
    ("Avoiding Tolls", ["avoid tolls", "no tolls", "without toll"]),
    ("Avoiding Highways", ["avoid highways", "no highways", "without highways"]),
    ("Weather-Based", ["weather", "rain", "snow", "storm", "avoid weather"]),
    ("EV Charging", ["ev charging", "electric charging", "charging stations", "ev stops"]),
    ("Emergency Routing", ["hospital", "emergency", "urgent care", "immediately"]),
    ("Parking Availability", ["parking", "park near", "where can i park"]),
    ("Shortest", ["shortest", "quickest", "fastest"]),
    ("Rest Stop", ["rest stop", "break every", "rest every", "stop every"]),
    ("Night Stay", ["night stay", "overnight", "stay in", "stay at"]) ]

/-- Word-character test lifted to an optional character: an absent character
(string edge) counts as a non-word character, as `\b` treats it. -/
def isWordOpt : Option Char → Bool
  | none => false
  | some c => isWordChar c

/-- The `\b` assertion before a literal: the previous character and the
literal's first character must differ in word-character status. -/
def bBefore (prev : Option Char) (kw : List Char) : Bool :=
  isWordOpt prev != isWordOpt kw.head?

/-- The `\b` assertion after a literal: the literal's last character and the
following character must differ in word-character status. -/
def bAfter (kw : List Char) (rest : List Char) : Bool :=
  isWordOpt kw.getLast? != isWordOpt rest.head?

/-- A whole match attempt of `\b<kw>\b` (for a nonempty literal `kw`) at the
current position, with `prev` the character just before it. -/
def wbAt (kw : List Char) (prev : Option Char) (s : List Char) : Bool :=
  kw.isPrefixOf s && bBefore prev kw && bAfter kw (s.drop kw.length)

/-- `re.search(r'\b' + re.escape(kw) + r'\b', s)` as a Bool: scan every
position, carrying the previous character for the left boundary test. -/
def wbHit (kw : List Char) (prev : Option Char) : List Char → Bool
  | [] => wbAt kw prev []
  | c :: rest => wbAt kw prev (c :: rest) || wbHit kw (some c) rest

/-- One keyword's boundary-search against the (already lowered) query. -/
def kwHit (kw : String) (lq : List Char) : Bool :=
  wbHit kw.data none lq

/-- `extract_intents` (source lines 147-172): an intent is appended when any
of its trigger phrases matches at word boundaries in the lowered query. -/
def extract_intents (q : String) : List String :=
  (intent_keywords.filter (fun pr => pr.2.any (fun kw => kwHit kw (pyLower q.data)))).map
    (fun pr => pr.1)

/-! ## Constraint extractors -/

/-- Ordered alternation of unit literals: first literal that is a prefix of
the remainder wins. -/
def unitAt (units : List (List Char)) (r : List Char) : Option (List Char × List Char) :=
  match units with
  | [] => none
  | u :: us => if u.isPrefixOf r then some (u, r.drop u.length) else unitAt us r

/-- A match attempt of `\d+<sp>?(?:unit1|unit2|...)` at one position: maximal
digit run, then the optional separator is tried greedily (with it first,
without it second), then the ordered unit alternation.  Returns the capture
(digits, separator if used, unit) and the remainder. -/
def tryNumUnit (sp : Char → Bool) (units : List (List Char)) (s : List Char) :
    Option (List Char × List Char) :=
  let ds := s.takeWhile Char.isDigit
  if ds.isEmpty then none
  else
    match s.drop ds.length with
    | [] => none
    | c :: r2 =>
      if sp c then
        match unitAt units r2 with
        | some (u, rem) => some (ds ++ c :: u, rem)
        | none =>
          match unitAt units (c :: r2) with
          | some (u, rem) => some (ds ++ u, rem)
          | none => none
      else
        match unitAt units (c :: r2) with
        | some (u, rem) => some (ds ++ u, rem)
        | none => none

/-- The distance units of `r"rest stops every (\d+ ?(?:miles|mile|km|kilometers))"`. -/
def distance_units : List (List Char) :=
  [("miles").data, ("mile").data, ("km").data, ("kilometers").data]

/-- A match attempt of the distance-constraint pattern at one position. -/
def tryDistAt (s : List Char) : Option (List Char × List Char) :=
  if ("rest stops every ").data.isPrefixOf s then
    tryNumUnit (fun c => c = ' ') distance_units (s.drop (("rest stops every ").data.length))
  else none

/-- `extract_distance_constraints` (source lines 135-137). -/
def extract_distance_constraints (q : String) : List String :=
  (findAll tryDistAt (pyLower q.data)).map (fun l => String.mk l)

/-- The duration units of
`r"(\d+\s?(?:minutes|minute|mins|min|hours|hour|hrs|hr))"`. -/
def duration_units : List (List Char) :=
  [("minutes").data, ("minute").data, ("mins").data, ("min").data,
   ("hours").data, ("hour").data, ("hrs").data, ("hr").data]

/-- The entity tagger (spaCy `nlp`), an external collaborator: a list of
(entity text, entity label) pairs for a sentence. -/
def Tagger : Type := String → List (String × String)

/-- The two lists of `extract_time_constraints`. -/
structure TimeConstraints where
  times : List String
  durations : List String
deriving DecidableEq, Repr

/-- `extract_time_constraints` (source lines 140-144): calendar entities from
the tagger plus the regex-matched durations. -/
def extract_time_constraints (tagger : Tagger) (q : String) : TimeConstraints :=
  ⟨ ((tagger q).filter (fun e => (["TIME", "DATE"] : List String).contains e.2)).map
      (fun e => e.1),
    (findAll (tryNumUnit isPySpace duration_units) (pyLower q.data)).map
      (fun l => String.mk l) ⟩

/-! ## Generic location extractor (`extract_locations`) -/

/-- `extract_locations` (source lines 112-114): tagger entities of the place
categories whose text is not in the exclusion list.  (The Python exclusion
list may hold `None` for a missing end location; `None` never equals an
entity text, so the embedded list simply omits it.) -/
def extract_locations (tagger : Tagger) (q : String) (exclude : List String) : List String :=
  (((tagger q).filter (fun e =>
      ((["GPE", "LOC", "FACILITY"] : List String).contains e.2) &&
      !(exclude.contains e.1)))).map (fun e => e.1)

/-- The exclusion list `[start_location, end_location]` that
`structured_output` passes to `extract_locations`. -/
def excluded_texts (q : String) : List String :=
  (extract_start_end_locations q).1 :: (extract_start_end_locations q).2.toList

/-- `locations` as computed in `structured_output` (source line 207). -/
def normalized_locations (tagger : Tagger) (q : String) : List String :=
  extract_locations tagger q (excluded_texts q)

/-- `unique_waypoints` as computed in `structured_output` (source line 209):
waypoints not already reported as generic locations. -/
def unique_waypoints (tagger : Tagger) (q : String) : List String :=
  (extract_waypoints q).filter (fun w => !((normalized_locations tagger q).contains w))

/-! ## Place search (`search_best_places`) -/

/-- One entry of a place's `"openingHours"` list; its `"isOpen"` key may be
absent (`dict.get("isOpen", False)`). -/
structure OpeningEntry where
  isOpen : Option Bool
deriving DecidableEq, Repr

/-- A raw candidate returned by the discover collaborator, with the optional
fields the source reads from it. -/
structure RawPlace where
  title : Option String
  addressLabel : Option String
  lat : Option ℚ
  lon : Option ℚ
  openingHours : Option (List OpeningEntry)
deriving DecidableEq, Repr

/-- The projection stored per kept place (source lines 69-74). -/
structure PlaceSummary where
  title : Option String
  address : Option String
  lat : Option ℚ
  lon : Option ℚ
deriving DecidableEq, Repr

/-- `unique_key = place.get("title", "") + "|" + place.get("address", {}).get("label", "")`. -/
def uniqueKey (p : RawPlace) : String :=
  p.title.getD "" ++ "|" ++ p.addressLabel.getD ""

/-- The dict appended to `best_places` (source lines 69-74). -/
def placeSummary (p : RawPlace) : PlaceSummary :=
  ⟨p.title, p.addressLabel, p.lat, p.lon⟩

/-- `place.get("openingHours", [{}])[0]`: the default `[{}]` makes a missing
field yield the empty entry, while a present empty list raises `IndexError`. -/
def openingInfo (p : RawPlace) : Except String OpeningEntry :=
  match p.openingHours with
  | none => .ok ⟨none⟩
  | some [] => .error "IndexError: list index out of range"
  | some (e :: _) => .ok e

/-- `opening_info.get("isOpen", False)` as used by the open filter. -/
def entryIsOpen (e : OpeningEntry) : Bool :=
  e.isOpen.getD false

/-- The open test as a total predicate on raw places (the `some []` case is
arbitrary here; it is only used under the hypothesis that no place carries an
empty `openingHours` list, where the loop would raise instead). -/
def placeIsOpen (p : RawPlace) : Bool :=
  match p.openingHours with
  | none => false
  | some [] => false
  | some (e :: _) => entryIsOpen e

/-- The loop of `search_best_places` (source lines 56-77).  `seen` is the set
of unique keys already kept and `remaining` is `limit - len(best_places)`:
the source breaks when `len(best_places) == limit`, which here is
`remaining == 1` just after an append — and which never fires when
`limit = 0`, since `len` has then already passed `0`. -/
def sbpGo (seen : List String) (remaining : Nat) :
    List RawPlace → Except String (List PlaceSummary)
  | [] => .ok []
  | p :: rest =>
    match openingInfo p with
    | .error msg => .error msg
    | .ok e =>
      if entryIsOpen e then
        if seen.contains (uniqueKey p) then sbpGo seen remaining rest
        else if remaining == 1 then .ok [placeSummary p]
        else (sbpGo (uniqueKey p :: seen) (remaining - 1) rest).map
          (fun l => placeSummary p :: l)
      else sbpGo seen remaining rest

/-- `search_best_places` (source lines 43-79) on the raw result list the
discover collaborator returned; the HTTP fetch itself is the collaborator's.
The source's default `limit` is 3. -/
def search_best_places (results : List RawPlace) (limit : Nat) :
    Except String (List PlaceSummary) :=
  sbpGo [] limit results

/-- Specification-side first-seen deduplication by unique key, starting from
a set of already-seen keys. -/
def dedupByKey (seen : List String) : List RawPlace → List RawPlace
  | [] => []
  | p :: rest =>
    if seen.contains (uniqueKey p) then dedupByKey seen rest
    else p :: dedupByKey (uniqueKey p :: seen) rest

/-! ## The assembler (`structured_output`) -/

/-- A coordinate pair dict; the collaborator's `position.get("lat")` /
`position.get("lng")` may be absent. -/
structure Coord where
  lat : Option ℚ
  lon : Option ℚ
deriving DecidableEq, Repr

/-- `DEFAULT_COORDINATES` (source line 11). -/
def DEFAULT_COORDINATES : Coord :=
  ⟨some (32.7332477 : ℚ), some (-97.1117687 : ℚ)⟩

/-- `DEFAULT_COUNTRY_CODE` (source line 12). -/
def DEFAULT_COUNTRY_CODE : String := "USA"

/-- What `geocode_location` returns on a hit (source lines 34-38). -/
structure GeoResult where
  lat : Option ℚ
  lon : Option ℚ
  countryCode : Option String
deriving DecidableEq, Repr

/-- The geocoding collaborator: name and optional country-code hint. -/
def Geocoder : Type := String → Option String → Option GeoResult

/-- The discover collaborator: query and anchor coordinates to raw places. -/
def Searcher : Type := String → Option ℚ → Option ℚ → List RawPlace

/-- What `get_route_info` returns on success (source lines 101-105). -/
structure RouteInfo where
  distance_meters : Option ℚ
  duration_seconds : Option ℚ
  polyline : Option String
deriving DecidableEq, Repr

/-- The routing collaborator. -/
def Router : Type := Coord → Coord → Option RouteInfo

/-- The dict returned by `structured_output` (source lines 222-233), fields
in the source's key order. -/
structure StructuredOutput where
  intents : List String
  start_location : String
  start_coordinates : Coord
  end_location : Option String
  end_coordinates : Option Coord
  waypoints : List String
  enhanced_waypoints : List (String × List PlaceSummary)
  distance_constraints : List String
  time_constraints : TimeConstraints
  route_info : Option RouteInfo
deriving DecidableEq, Repr

/-- `start_country_code` as computed in `structured_output` (source lines
190-197): the default country code when the start geocode failed, otherwise
the geocode's (possibly absent) country code. -/
def start_country_code (geocode : Geocoder) (q : String) : Option String :=
  match geocode ((extract_start_end_locations q).1) none with
  | none => some DEFAULT_COUNTRY_CODE
  | some g => g.countryCode

/-- Python dict insert-or-overwrite, for `enhanced_waypoints[wp] = best`. -/
def assocUpsert (l : List (String × List PlaceSummary)) (k : String)
    (v : List PlaceSummary) : List (String × List PlaceSummary) :=
  match l with
  | [] => [(k, v)]
  | (k0, v0) :: t => if k0 = k then (k, v) :: t else (k0, v0) :: assocUpsert t k v

/-- The waypoint loop of `structured_output` (source lines 215-220): for each
unique waypoint query the discover collaborator anchored at the start
coordinates, keep the best places when nonempty.  (`start_coordinates` is a
nonempty dict, hence always truthy in the source's guard.) -/
def enhancedLoop (search : Searcher) (sc : Coord) :
    List (String × List PlaceSummary) → List String →
    Except String (List (String × List PlaceSummary))
  | acc, [] => .ok acc
  | acc, wp :: rest =>
    match search_best_places (search wp sc.lat sc.lon) 3 with
    | .error msg => .error msg
    | .ok best =>
      enhancedLoop search sc (if best.isEmpty then acc else assocUpsert acc wp best) rest

/-- The diagnostic printed when the start geocode fails (source line 192). -/
def startNoticeText (startLoc : String) : String :=
  "Could not find geolocation for start location: " ++ startLoc ++ ", using default location."

/-- The diagnostic printed when the end geocode fails (source line 201). -/
def endNoticeText (endLoc : String) : String :=
  "Could not find geolocation for end location: " ++ endLoc ++ ", using default location."

/-- `start_coordinates` as computed in `structured_output` (source lines
190-196): the default coordinates when the start geocode fails, otherwise the
geocoded position. -/
def resolved_start_coordinates (geocode : Geocoder) (q : String) : Coord :=
  match geocode ((extract_start_end_locations q).1) none with
  | none => DEFAULT_COORDINATES
  | some g => ⟨g.lat, g.lon⟩

/-- The diagnostic printed for the start location (source line 192), as a
list (empty when the geocode succeeded). -/
def start_notices (geocode : Geocoder) (q : String) : List String :=
  match geocode ((extract_start_end_locations q).1) none with
  | none => [startNoticeText ((extract_start_end_locations q).1)]
  | some _ => []

/-- `end_geocode` as computed in `structured_output` (source line 199): the
end location, when present and truthy (nonempty), is geocoded with the
country code resolved for the start as hint. -/
def resolved_end_geo (geocode : Geocoder) (q : String) : Option GeoResult :=
  match (extract_start_end_locations q).2 with
  | some e => if e = "" then none else geocode e (start_country_code geocode q)
  | none => none

/-- `end_coordinates` and the end diagnostic (source lines 200-204): a failed
geocode of a truthy end location falls back to the default coordinates with a
notice; no end location (or an empty-string one) yields no coordinates. -/
def resolved_end_pair (geocode : Geocoder) (q : String) : Option Coord × List String :=
  match (extract_start_end_locations q).2, resolved_end_geo geocode q with
  | some e, none =>
    if e = "" then (none, []) else (some DEFAULT_COORDINATES, [endNoticeText e])
  | _, some g => (some ⟨g.lat, g.lon⟩, [])
  | none, none => (none, [])

/-- `route_info` (source line 212): the route collaborator is invoked when
the end coordinates exist (`start_coordinates`, a nonempty dict, is always
truthy). -/
def resolved_route_info (geocode : Geocoder) (route : Router) (q : String) :
    Option RouteInfo :=
  match (resolved_end_pair geocode q).1 with
  | some ec => route (resolved_start_coordinates geocode q) ec
  | none => none

/-- `structured_output` (source lines 183-233).  The collaborators are
explicit parameters; the returned pair is the source's dict together with the
list of diagnostic notices it printed, and the `Except` carries the
`IndexError` that `search_best_places` can raise.  The guard
`if end_location` in the source is string truthiness, hence the explicit
empty-string tests inside the component definitions. -/
def structured_output (geocode : Geocoder) (search : Searcher) (route : Router)
    (tagger : Tagger) (q : String) :
    Except String (StructuredOutput × List String) :=
  match enhancedLoop search (resolved_start_coordinates geocode q) []
      (unique_waypoints tagger q) with
  | .error msg => .error msg
  | .ok enh =>
    .ok (⟨extract_intents q, (extract_start_end_locations q).1,
          resolved_start_coordinates geocode q, (extract_start_end_locations q).2,
          (resolved_end_pair geocode q).1, unique_waypoints tagger q, enh,
          extract_distance_constraints q, extract_time_constraints tagger q,
          resolved_route_info geocode route q⟩,
         start_notices geocode q ++ (resolved_end_pair geocode q).2)

/-! ## Specification-side predicates

Declarative descriptions of what the scanning functions compute, used to
state the claims: a leftmost match position instead of a recursive scan, and
a shortest-capture condition instead of a character-by-character loop. -/

/-- The minimal-nonempty-capture specification of `([\w\s]+?)` followed by a
stop token: `y` is a nonempty run of allowed characters at the front of `r`,
the stop token follows it, and no shorter nonempty cut point has the stop
token. -/
def capSpec (allowed : Char → Bool) (stop : List Char → Bool) (r y : List Char) : Prop :=
  y ≠ [] ∧ y.isPrefixOf r = true ∧ (∀ c ∈ y, allowed c = true) ∧
  stop (r.drop y.length) = true ∧
  ∀ k, k < y.length → 0 < k → stop (r.drop k) = false

/-- A `from <x> to` match of the start regex at position `i` of the lowered
query. -/
def startMatchSpec (s : List Char) (i : Nat) (x : List Char) : Prop :=
  ("from ").data.isPrefixOf (s.drop i) = true ∧
  capSpec wordSpaceChar startStopTok ((s.drop i).drop 5) x

/-- A `to <y><stop>` match of the end regex at position `i` of the lowered
query. -/
def endMatchSpec (s : List Char) (i : Nat) (y : List Char) : Prop :=
  ("to ").data.isPrefixOf (s.drop i) = true ∧
  capSpec wordSpaceChar endStopTok ((s.drop i).drop 3) y

/-- The character just before position `i`, with `prev` the context character
for position `0` (string edge: `none`). -/
def prevCharAt (prev : Option Char) (s : List Char) (i : Nat) : Option Char :=
  if i = 0 then prev else s.get? (i - 1)

/-- Declarative word-boundary match: some position of `s` carries a
`\b<kw>\b` match. -/
def wbMatchSpec (kw : String) (s : List Char) : Prop :=
  ∃ i, i ≤ s.length ∧ wbAt kw.data (prevCharAt none s i) (s.drop i) = true

/-! ## Lemmas about the generic scanners -/

theorem scanFirst_eq_some_iff {α : Type} (f : List Char → Option α) (s : List Char) (y : α) :
    scanFirst f s = some y ↔
      ∃ i, i ≤ s.length ∧ f (s.drop i) = some y ∧ ∀ j, j < i → f (s.drop j) = none := by
  induction s with
  | nil =>
    simp only [scanFirst]
    constructor
    · intro h
      exact ⟨0, Nat.le_refl 0, h, fun j hj => absurd hj (Nat.not_lt_zero j)⟩
    · rintro ⟨i, hi, hf, -⟩
      have : (([] : List Char)).drop i = [] := List.drop_nil
      rwa [this] at hf
  | cons c rest ih =>
    simp only [scanFirst]
    cases h : f (c :: rest) with
    | some z =>
      constructor
      · intro hz
        exact ⟨0, Nat.zero_le _, by simpa using hz ▸ h, fun j hj => absurd hj (Nat.not_lt_zero j)⟩
      · rintro ⟨i, hi, hf, hmin⟩
        cases i with
        | zero => simp only [List.drop_zero] at hf; rw [h] at hf; exact hf
        | succ j =>
          have := hmin 0 (Nat.succ_pos j)
          simp only [List.drop_zero] at this
          rw [h] at this
          exact absurd this (by simp)
    | none =>
      rw [ih]
      constructor
      · rintro ⟨i, hi, hf, hmin⟩
        refine ⟨i + 1, by simpa using hi, by simpa using hf, ?_⟩
        intro j hj
        cases j with
        | zero => simpa using h
        | succ j0 => simpa using hmin j0 (Nat.lt_of_succ_lt_succ hj)
      · rintro ⟨i, hi, hf, hmin⟩
        cases i with
        | zero => simp only [List.drop_zero] at hf; rw [h] at hf; exact absurd hf (by simp)
        | succ j =>
          refine ⟨j, by simpa using hi, by simpa using hf, ?_⟩
          intro j0 hj0
          simpa using hmin (j0 + 1) (Nat.succ_lt_succ hj0)

theorem scanFirst_eq_none_iff {α : Type} (f : List Char → Option α) (s : List Char) :
    scanFirst f s = none ↔ ∀ i, f (s.drop i) = none := by
  induction s with
  | nil =>
    simp only [scanFirst]
    constructor
    · intro h i; simpa [List.drop_nil] using h
    · intro h; simpa using h 0
  | cons c rest ih =>
    simp only [scanFirst]
    cases h : f (c :: rest) with
    | some z =>
      constructor
      · intro hz; exact absurd hz (by simp)
      · intro hall; have := hall 0; rw [List.drop_zero, h] at this; exact absurd this (by simp)
    | none =>
      rw [ih]
      constructor
      · intro hall i
        cases i with
        | zero => simpa using h
        | succ j => simpa using hall j
      · intro hall j
        simpa using hall (j + 1)

theorem minCap_eq_some_iff (allowed : Char → Bool) (stop : List Char → Bool)
    (r y : List Char) :
    minCap allowed stop r = some y ↔ capSpec allowed stop r y := by
  induction r generalizing y with
  | nil =>
    simp only [minCap]
    constructor
    · intro h; exact absurd h (by simp)
    · rintro ⟨hne, hpre, -, -, -⟩
      rw [List.isPrefixOf_iff_prefix] at hpre
      exact absurd (List.prefix_nil.mp hpre) hne
  | cons c rest ih =>
    simp only [minCap]
    by_cases hc : allowed c = true
    · rw [if_pos hc]
      by_cases hs : stop rest = true
      · rw [if_pos hs]
        constructor
        · intro h
          have hy : y = [c] := by
            have := Option.some.inj h
            exact this.symm
          subst hy
          refine ⟨by simp, by simp [List.isPrefixOf], ?_, by simpa using hs, ?_⟩
          · intro d hd; simp at hd; subst hd; exact hc
          · intro k hk hk0; simp at hk; omega
        · rintro ⟨hne, hpre, hall, hstop, hmin⟩
          rcases y with _ | ⟨y0, ytail⟩
          · exact absurd rfl hne
          have hy0 : y0 = c := by
            rw [List.isPrefixOf_iff_prefix] at hpre
            rcases hpre with ⟨t, ht⟩
            exact (List.cons.injEq _ _ _ _ ▸ ht).1
          subst hy0
          rcases ytail with _ | ⟨y1, ytail2⟩
          · rfl
          · have := hmin 1 (by simp) (by omega)
            simp only [List.drop_succ_cons, List.drop_zero] at this
            rw [hs] at this
            exact absurd this (by simp)
      · rw [if_neg hs]
        constructor
        · intro h
          rcases Option.map_eq_some'.mp h with ⟨y0, hy0, rfl⟩
          rcases (ih y0).mp hy0 with ⟨hne, hpre, hall, hstop, hmin⟩
          refine ⟨by simp, ?_, ?_, ?_, ?_⟩
          · rw [List.isPrefixOf_iff_prefix] at hpre ⊢
            rcases hpre with ⟨t, ht⟩
            exact ⟨t, by simp [ht]⟩
          · intro d hd
            rcases List.mem_cons.mp hd with rfl | hd2
            · exact hc
            · exact hall d hd2
          · simpa using hstop
          · intro k hk hk0
            rcases k with _ | k0
            · omega
            rcases k0 with _ | k1
            · simpa using hs
            · have := hmin (k1 + 1) (by simp at hk; omega) (by omega)
              simpa using this
        · rintro ⟨hne, hpre, hall, hstop, hmin⟩
          rcases y with _ | ⟨y0, ytail⟩
          · exact absurd rfl hne
          have hy0 : y0 = c := by
            rw [List.isPrefixOf_iff_prefix] at hpre
            rcases hpre with ⟨t, ht⟩
            exact (List.cons.injEq _ _ _ _ ▸ ht).1
          subst hy0
          have hytail : ytail ≠ [] := by
            rintro rfl
            simp only [List.length_cons, List.length_nil, List.drop_succ_cons,
              List.drop_zero] at hstop
            rw [hstop] at hs
            exact hs rfl
          rw [Option.map_eq_some']
          refine ⟨ytail, (ih ytail).mpr ⟨hytail, ?_, ?_, ?_, ?_⟩, rfl⟩
          · rw [List.isPrefixOf_iff_prefix] at hpre ⊢
            rcases hpre with ⟨t, ht⟩
            exact ⟨t, by simpa using ht⟩
          · intro d hd; exact hall d (List.mem_cons_of_mem _ hd)
          · simpa using hstop
          · intro k hk hk0
            have := hmin (k + 1) (by simp; omega) (by omega)
            simpa using this
    · rw [if_neg hc]
      constructor
      · intro h; exact absurd h (by simp)
      · rintro ⟨hne, hpre, hall, -, -⟩
        rcases y with _ | ⟨y0, ytail⟩
        · exact absurd rfl hne
        have hy0 : y0 = c := by
          rw [List.isPrefixOf_iff_prefix] at hpre
          rcases hpre with ⟨t, ht⟩
          exact (List.cons.injEq _ _ _ _ ▸ ht).1
        have := hall y0 (by simp)
        rw [hy0] at this
        exact absurd this hc

theorem tryCap_eq_some_iff (pref : List Char) (allowed : Char → Bool)
    (stop : List Char → Bool) (s y : List Char) :
    tryCap pref allowed stop s = some y ↔
      pref.isPrefixOf s = true ∧ capSpec allowed stop (s.drop pref.length) y := by
  unfold tryCap
  by_cases h : pref.isPrefixOf s = true
  · rw [if_pos h, minCap_eq_some_iff]
    exact ⟨fun hc => ⟨h, hc⟩, fun hc => hc.2⟩
  · rw [if_neg (by simpa using h)]
    constructor
    · intro hc; exact absurd hc (by simp)
    · rintro ⟨hp, -⟩; exact absurd hp h

theorem tryCap_eq_none_iff (pref : List Char) (allowed : Char → Bool)
    (stop : List Char → Bool) (s : List Char) :
    tryCap pref allowed stop s = none ↔
      ∀ y, ¬(pref.isPrefixOf s = true ∧ capSpec allowed stop (s.drop pref.length) y) := by
  constructor
  · intro h y hy
    rw [← tryCap_eq_some_iff] at hy
    rw [h] at hy
    exact absurd hy (by simp)
  · intro h
    cases hc : tryCap pref allowed stop s with
    | none => rfl
    | some y =>
      exact absurd ((tryCap_eq_some_iff pref allowed stop s y).mp hc) (h y)

/-! ## Lemmas about the word-boundary search -/

theorem wbHit_iff (kw : List Char) (prev : Option Char) (s : List Char) :
    wbHit kw prev s = true ↔
      ∃ i, i ≤ s.length ∧ wbAt kw (prevCharAt prev s i) (s.drop i) = true := by
  induction s generalizing prev with
  | nil =>
    simp only [wbHit]
    constructor
    · intro h
      exact ⟨0, Nat.le_refl 0, by simpa [prevCharAt] using h⟩
    · rintro ⟨i, hi, hat⟩
      have hi0 : i = 0 := Nat.le_zero.mp (by simpa using hi)
      subst hi0
      simpa [prevCharAt] using hat
  | cons c rest ih =>
    simp only [wbHit, Bool.or_eq_true]
    constructor
    · rintro (h | h)
      · exact ⟨0, Nat.zero_le _, by simpa [prevCharAt] using h⟩
      · rcases (ih (some c)).mp h with ⟨i, hi, hat⟩
        refine ⟨i + 1, by simpa using hi, ?_⟩
        have hp : prevCharAt prev (c :: rest) (i + 1) = prevCharAt (some c) rest i := by
          unfold prevCharAt
          rcases i with _ | i0
          · simp
          · simp
        rw [hp]
        simpa using hat
    · rintro ⟨i, hi, hat⟩
      rcases i with _ | i0
      · exact Or.inl (by simpa [prevCharAt] using hat)
      · refine Or.inr ((ih (some c)).mpr ⟨i0, by simpa using hi, ?_⟩)
        have hp : prevCharAt prev (c :: rest) (i0 + 1) = prevCharAt (some c) rest i0 := by
          unfold prevCharAt
          rcases i0 with _ | i1
          · simp
          · simp
        rw [hp] at hat
        simpa using hat

theorem kwHit_iff (kw : String) (s : List Char) :
    kwHit kw s = true ↔ wbMatchSpec kw s := by
  unfold kwHit wbMatchSpec
  exact wbHit_iff kw.data none s

instance wbMatchSpecDecidable (kw : String) (s : List Char) : Decidable (wbMatchSpec kw s) :=
  decidable_of_iff (kwHit kw s = true) (kwHit_iff kw s)

/-- Membership in the intent classifier's output, characterized by the
declarative word-boundary match over the lowered query. -/
theorem mem_extract_intents_iff (q : String) (intent : String) :
    intent ∈ extract_intents q ↔
      ∃ kws, (intent, kws) ∈ intent_keywords ∧
        ∃ kw ∈ kws, wbMatchSpec kw (pyLower q.data) := by
  unfold extract_intents
  rw [List.mem_map]
  constructor
  · rintro ⟨pr, hpr, rfl⟩
    rcases List.mem_filter.mp hpr with ⟨hmem, hany⟩
    rcases List.any_eq_true.mp hany with ⟨kw, hkw, hhit⟩
    exact ⟨pr.2, by simpa using hmem, kw, hkw, (kwHit_iff kw _).mp hhit⟩
  · rintro ⟨kws, hmem, kw, hkw, hspec⟩
    refine ⟨(intent, kws), List.mem_filter.mpr ⟨hmem, ?_⟩, rfl⟩
    exact List.any_eq_true.mpr ⟨kw, hkw, (kwHit_iff kw _).mpr hspec⟩

/-! ## Survival of word-boundary matches under appending a segment -/

theorem isPrefixOf_append_of_isPrefixOf (a b t : List Char) (h : a.isPrefixOf b = true) :
    a.isPrefixOf (b ++ t) = true := by
  rw [List.isPrefixOf_iff_prefix] at h ⊢
  rcases h with ⟨u, rfl⟩
  exact ⟨u ++ t, by simp⟩

theorem length_le_of_isPrefixOf (a b : List Char) (h : a.isPrefixOf b = true) :
    a.length ≤ b.length := by
  rw [List.isPrefixOf_iff_prefix] at h
  exact h.length_le

theorem mem_of_mem_isPrefixOf (a b : List Char) (c : Char) (h : a.isPrefixOf b = true)
    (hc : c ∈ a) : c ∈ b := by
  rw [List.isPrefixOf_iff_prefix] at h
  rcases h with ⟨u, rfl⟩
  exact List.mem_append_left u hc

theorem isWordOpt_head_append (A t : List Char) (ht : isWordOpt t.head? = false) :
    isWordOpt ((A ++ t).head?) = isWordOpt A.head? := by
  cases A with
  | nil => simpa [isWordOpt] using ht
  | cons a A2 => simp

/-- A boundary match inside `s` survives appending a segment that starts with
a non-word character (or is empty). -/
theorem wbAt_append_left (kw s t : List Char) (i : Nat) (hi : i ≤ s.length)
    (ht : isWordOpt t.head? = false)
    (h : wbAt kw (prevCharAt none s i) (s.drop i) = true) :
    wbAt kw (prevCharAt none (s ++ t) i) ((s ++ t).drop i) = true := by
  unfold wbAt at h ⊢
  rw [Bool.and_eq_true, Bool.and_eq_true] at h
  rcases h with ⟨⟨hpre, hbef⟩, haft⟩
  have hdrop : (s ++ t).drop i = s.drop i ++ t := List.drop_append_of_le_length hi
  have hprev : prevCharAt none (s ++ t) i = prevCharAt none s i := by
    unfold prevCharAt
    rcases i with _ | i0
    · rfl
    · simp only [if_neg (Nat.succ_ne_zero i0)]
      exact List.get?_append (by omega)
  have hklen : kw.length ≤ (s.drop i).length := length_le_of_isPrefixOf _ _ hpre
  have hdrop2 : (s.drop i ++ t).drop kw.length = (s.drop i).drop kw.length ++ t :=
    List.drop_append_of_le_length hklen
  rw [hdrop, hprev, Bool.and_eq_true, Bool.and_eq_true]
  refine ⟨⟨isPrefixOf_append_of_isPrefixOf _ _ _ hpre, hbef⟩, ?_⟩
  rw [hdrop2]
  unfold bAfter at haft ⊢
  rw [isWordOpt_head_append _ _ ht]
  exact haft

/-- A boundary match inside the appended segment, at a position past its
first character, survives the concatenation. -/
theorem wbAt_append_right (kw s t : List Char) (j : Nat) (hj : j ≤ t.length)
    (hj1 : 1 ≤ j)
    (h : wbAt kw (prevCharAt none t j) (t.drop j) = true) :
    wbAt kw (prevCharAt none (s ++ t) (s.length + j)) ((s ++ t).drop (s.length + j)) = true := by
  have hdrop : (s ++ t).drop (s.length + j) = t.drop j := List.drop_append j
  have hprev : prevCharAt none (s ++ t) (s.length + j) = prevCharAt none t j := by
    unfold prevCharAt
    have h1 : s.length + j ≠ 0 := by omega
    have h2 : j ≠ 0 := by omega
    rw [if_neg h1, if_neg h2]
    have h3 : s.length + j - 1 = s.length + (j - 1) := by omega
    rw [h3, List.get?_append_right (by omega)]
    congr 1
    omega
  rw [hdrop, hprev]
  exact h

/-! ## Claim C4: the intent classifier -/

/-- C4 (confirmed): an intent is in the classifier's result exactly when one
of its trigger phrases matches the lower-cased query at whole-word/phrase
boundaries (so `by` does not fire inside `albany`); the classifier is a total
function (it cannot raise), and a query matching no trigger yields the empty
list. -/
theorem claim_C4_theorem (q : String) :
    (∀ intent, intent ∈ extract_intents q ↔
        ∃ kws, (intent, kws) ∈ intent_keywords ∧
          ∃ kw ∈ kws, wbMatchSpec kw (pyLower q.data)) ∧
    ((∀ intent kws, (intent, kws) ∈ intent_keywords →
        ∀ kw ∈ kws, ¬ wbMatchSpec kw (pyLower q.data)) →
      extract_intents q = []) := by
  constructor
  · intro intent
    exact mem_extract_intents_iff q intent
  · intro hnone
    unfold extract_intents
    rw [List.map_eq_nil_iff, List.filter_eq_nil_iff]
    intro pr hpr hany
    rcases List.any_eq_true.mp hany with ⟨kw, hkw, hhit⟩
    exact absurd ((kwHit_iff kw _).mp hhit) (hnone pr.1 pr.2 (by simpa using hpr) kw hkw)

/-! ## Claim C9: monotonicity of the intent classifier -/

/-- C9 (corrected): appending a segment can destroy an existing whole-word
match at the junction, so the original monotonicity claim fails; it holds
once the appended segment starts with a non-word character.  Part one:
no intent is lost.  Part two: a whole-word trigger match inside the segment
for a not-yet-detected intent makes the intent set strictly grow. -/
theorem claim_C9_amended (q seg : String)
    (hseg : isWordOpt ((pyLower seg.data).head?) = false) :
    (∀ intent, intent ∈ extract_intents q → intent ∈ extract_intents (q ++ seg)) ∧
    (∀ intent kws kw, (intent, kws) ∈ intent_keywords → kw ∈ kws →
      intent ∉ extract_intents q → wbMatchSpec kw (pyLower seg.data) →
      intent ∈ extract_intents (q ++ seg)) := by
  have hdata : (q ++ seg).data = q.data ++ seg.data := rfl
  have hlow : pyLower ((q ++ seg).data) = pyLower q.data ++ pyLower seg.data := by
    rw [hdata]; unfold pyLower; exact List.map_append Char.toLower q.data seg.data
  constructor
  · intro intent hmem
    rcases (mem_extract_intents_iff q intent).mp hmem with ⟨kws, htab, kw, hkw, i, hi, hat⟩
    refine (mem_extract_intents_iff (q ++ seg) intent).mpr ⟨kws, htab, kw, hkw, ?_⟩
    rw [hlow]
    refine ⟨i, ?_, wbAt_append_left kw.data (pyLower q.data) (pyLower seg.data) i hi hseg hat⟩
    rw [List.length_append]
    omega
  · intro intent kws kw htab hkw _ hspec
    rcases hspec with ⟨j, hj, hat⟩
    have hj1 : 1 ≤ j := by
      by_contra hj0
      have hj00 : j = 0 := by omega
      subst hj00
      unfold wbAt at hat
      rw [Bool.and_eq_true, Bool.and_eq_true] at hat
      rcases hat with ⟨⟨hpre, hbef⟩, -⟩
      have hprev : prevCharAt none (pyLower seg.data) 0 = none := by
        unfold prevCharAt
        simp
      rw [hprev] at hbef
      rw [List.drop_zero] at hpre
      have hw : isWordOpt kw.data.head? = true := by
        unfold bBefore at hbef
        cases hx : isWordOpt kw.data.head?
        · rw [hx] at hbef; simp [isWordOpt] at hbef
        · rfl
      cases hkwd : kw.data with
      | nil => rw [hkwd] at hw; simp [isWordOpt] at hw
      | cons k0 ktail =>
        rw [hkwd] at hw hpre
        simp only [List.head?_cons] at hw
        rw [List.isPrefixOf_iff_prefix] at hpre
        rcases hpre with ⟨u, hu⟩
        rw [← hu] at hseg
        simp only [List.cons_append, List.head?_cons] at hseg
        rw [hw] at hseg
        exact absurd hseg (by simp)
    refine (mem_extract_intents_iff (q ++ seg) intent).mpr ⟨kws, htab, kw, hkw, ?_⟩
    rw [hlow]
    refine ⟨(pyLower q.data).length + j, ?_, ?_⟩
    · rw [List.length_append]; omega
    · exact wbAt_append_right kw.data (pyLower q.data) (pyLower seg.data) j hj hj1 hat

/-- C9 counterexample: `"avoid tolls"` detects Avoiding Tolls; appending the
segment `"s and scenic"` — which contains the whole-word trigger `scenic` of
the undetected intent Scenic Routing — removes Avoiding Tolls, so the
extended intent set does not contain the original one. -/
theorem claim_C9_counterexample :
    ("Avoiding Tolls") ∈ extract_intents ("avoid tolls") ∧
    ("Avoiding Tolls") ∉ extract_intents (("avoid tolls") ++ ("s and scenic")) ∧
    ("Scenic Routing") ∉ extract_intents ("avoid tolls") ∧
    wbMatchSpec ("scenic") (pyLower (("s and scenic")).data) := by
  decide

/-- C9 witness: the amended theorem applied to the query `"avoid tolls"` and
the segment `" and scenic"`, which starts with a non-word character. -/
theorem claim_C9_witness :
    ("Scenic Routing") ∈ extract_intents (("avoid tolls") ++ (" and scenic")) := by
  exact (claim_C9_amended ("avoid tolls") (" and scenic") (by decide)).2
    ("Scenic Routing") (["scenic", "beautiful", "picturesque", "scenery"]) ("scenic")
    (by decide) (by decide) (by decide) (by decide)

/-! ## Bridging the start/end match attempts and their declarative specs -/

theorem toTry_drop_eq_some_iff (s : List Char) (i : Nat) (y : List Char) :
    toTry (s.drop i) = some y ↔ endMatchSpec s i y := by
  unfold toTry endMatchSpec
  rw [tryCap_eq_some_iff]
  rfl

theorem toTry_drop_eq_none_iff (s : List Char) (i : Nat) :
    toTry (s.drop i) = none ↔ ∀ z, ¬ endMatchSpec s i z := by
  unfold toTry endMatchSpec
  rw [tryCap_eq_none_iff]
  rfl

theorem fromToTry_drop_eq_some_iff (s : List Char) (i : Nat) (x : List Char) :
    fromToTry (s.drop i) = some x ↔ startMatchSpec s i x := by
  unfold fromToTry startMatchSpec
  rw [tryCap_eq_some_iff]
  rfl

theorem fromToTry_drop_eq_none_iff (s : List Char) (i : Nat) :
    fromToTry (s.drop i) = none ↔ ∀ z, ¬ startMatchSpec s i z := by
  unfold fromToTry startMatchSpec
  rw [tryCap_eq_none_iff]
  rfl

theorem le_length_of_endMatchSpec (s : List Char) (i : Nat) (y : List Char)
    (h : endMatchSpec s i y) : i ≤ s.length := by
  by_contra hlt
  have hnil : s.drop i = [] := List.drop_eq_nil_of_le (by omega)
  rcases h with ⟨hpre, -⟩
  rw [hnil] at hpre
  simp [List.isPrefixOf] at hpre

theorem le_length_of_startMatchSpec (s : List Char) (i : Nat) (x : List Char)
    (h : startMatchSpec s i x) : i ≤ s.length := by
  by_contra hlt
  have hnil : s.drop i = [] := List.drop_eq_nil_of_le (by omega)
  rcases h with ⟨hpre, -⟩
  rw [hnil] at hpre
  simp [List.isPrefixOf] at hpre

/-! ## Claim C1: the start/end extractor on `from X to Y` queries -/

/-- C1 (corrected): the end regex is searched independently of the start
regex, so the end text starts after the leftmost `"to "` anywhere in the
lowered query — not after the `to` that terminates X.  The theorem
characterizes both raw captures as leftmost minimal matches, and ties the
extractor's results to the captures (stripped, from the lowered query). -/
theorem claim_C1_amended (q : String) :
    ((extract_start_end_locations q).2 = (end_capture q).map (fun m => String.mk (pyStrip m))) ∧
    (∀ y, end_capture q = some y ↔
      ∃ i, endMatchSpec (pyLower q.data) i y ∧
        ∀ j, j < i → ∀ z, ¬ endMatchSpec (pyLower q.data) j z) ∧
    (∀ x, start_capture q = some x ↔
      ∃ i, startMatchSpec (pyLower q.data) i x ∧
        ∀ j, j < i → ∀ z, ¬ startMatchSpec (pyLower q.data) j z) := by
  refine ⟨rfl, ?_, ?_⟩
  · intro y
    unfold end_capture
    rw [scanFirst_eq_some_iff]
    constructor
    · rintro ⟨i, hi, hsome, hmin⟩
      refine ⟨i, (toTry_drop_eq_some_iff _ i y).mp hsome, ?_⟩
      intro j hj z
      exact (toTry_drop_eq_none_iff _ j).mp (hmin j hj) z
    · rintro ⟨i, hm, hmin⟩
      refine ⟨i, le_length_of_endMatchSpec _ i y hm,
        (toTry_drop_eq_some_iff _ i y).mpr hm, ?_⟩
      intro j hj
      exact (toTry_drop_eq_none_iff _ j).mpr (hmin j hj)
  · intro x
    unfold start_capture
    rw [scanFirst_eq_some_iff]
    constructor
    · rintro ⟨i, hi, hsome, hmin⟩
      refine ⟨i, (fromToTry_drop_eq_some_iff _ i x).mp hsome, ?_⟩
      intro j hj z
      exact (fromToTry_drop_eq_none_iff _ j).mp (hmin j hj) z
    · rintro ⟨i, hm, hmin⟩
      refine ⟨i, le_length_of_startMatchSpec _ i x hm,
        (fromToTry_drop_eq_some_iff _ i x).mpr hm, ?_⟩
      intro j hj
      exact (fromToTry_drop_eq_none_iff _ j).mpr (hmin j hj)

/-- C1 counterexample: in `"from toronto to boston"` the end search matches
the `"to "` inside `"toronto "`, so the extractor returns end
`"to boston"`, not the `"boston"` the claim requires. -/
theorem claim_C1_counterexample :
    extract_start_end_locations ("from toronto to boston") =
      (("toronto"), some ("to boston")) ∧
    (("to boston") : String) ≠ ("boston") := by
  decide

/-! ## Claim C2: defaults when no pattern matches -/

/-- C2 (corrected): when no `from...to` pattern matches, the start defaults
to the sentinel; but the end is absent exactly when no `to Y<stop>` pattern
matches anywhere — a query without `from...to` can still get a non-null
end. -/
theorem claim_C2_amended (q : String) :
    (start_capture q = none → (extract_start_end_locations q).1 = ("current location")) ∧
    (start_capture q = none ↔ ∀ i x, ¬ startMatchSpec (pyLower q.data) i x) ∧
    ((extract_start_end_locations q).2 = none ↔ ∀ i y, ¬ endMatchSpec (pyLower q.data) i y) := by
  refine ⟨?_, ?_, ?_⟩
  · intro h
    unfold extract_start_end_locations
    rw [h]
  · unfold start_capture
    rw [scanFirst_eq_none_iff]
    constructor
    · intro h i
      exact (fromToTry_drop_eq_none_iff _ i).mp (h i)
    · intro h i
      exact (fromToTry_drop_eq_none_iff _ i).mpr (h i)
  · unfold extract_start_end_locations end_capture
    rw [Option.map_eq_none', scanFirst_eq_none_iff]
    constructor
    · intro h i
      exact (toTry_drop_eq_none_iff _ i).mp (h i)
    · intro h i
      exact (toTry_drop_eq_none_iff _ i).mpr (h i)

/-- C2 counterexample: `"Navigate to Boston."` has no `from...to` pattern
(the start capture is empty and the start falls back to the sentinel), yet
the end is `"boston"`, not null. -/
theorem claim_C2_counterexample :
    start_capture ("Navigate to Boston.") = none ∧
    extract_start_end_locations ("Navigate to Boston.") =
      (("current location"), some ("boston")) := by
  decide

/-! ## Lower-casing and stripping: idempotence and stability -/

theorem char_toNat_ofNat (m : Nat) (h : m < 55296) : (Char.ofNat m).toNat = m := by
  unfold Char.ofNat
  rw [dif_pos (Or.inl h)]
  rfl

theorem char_toLower_idem (c : Char) : Char.toLower (Char.toLower c) = Char.toLower c := by
  unfold Char.toLower
  by_cases h : c.toNat ≥ 65 ∧ c.toNat ≤ 90
  · rw [if_pos h]
    have h2 : (Char.ofNat (c.toNat + 32)).toNat = c.toNat + 32 :=
      char_toNat_ofNat _ (by omega)
    rw [if_neg (by omega)]
  · rw [if_neg h, if_neg h]

theorem pyLower_idem (l : List Char) : pyLower (pyLower l) = pyLower l := by
  induction l with
  | nil => rfl
  | cons c t ih =>
    show Char.toLower (Char.toLower c) :: pyLower (pyLower t) = Char.toLower c :: pyLower t
    rw [char_toLower_idem, ih]

theorem map_eq_self_of_mem (f : Char → Char) (l : List Char) (h : ∀ c ∈ l, f c = c) :
    l.map f = l := by
  induction l with
  | nil => rfl
  | cons c t ih =>
    rw [List.map_cons, h c (by simp), ih (fun d hd => h d (List.mem_cons_of_mem c hd))]

theorem mem_of_mem_dropWhile (p : Char → Bool) (l : List Char) (c : Char)
    (hc : c ∈ l.dropWhile p) : c ∈ l := by
  rcases List.dropWhile_suffix p (l := l) with ⟨u, hu⟩
  rw [← hu]
  exact List.mem_append_right u hc

theorem mem_of_mem_pyStrip (l : List Char) (c : Char) (hc : c ∈ pyStrip l) : c ∈ l := by
  unfold pyStrip at hc
  rw [List.mem_reverse] at hc
  have h1 : c ∈ (l.dropWhile isPySpace).reverse := mem_of_mem_dropWhile _ _ c hc
  rw [List.mem_reverse] at h1
  exact mem_of_mem_dropWhile _ _ c h1

theorem head_dropWhile_not (p : Char → Bool) (l : List Char) (c : Char)
    (h : (l.dropWhile p).head? = some c) : p c = false := by
  induction l with
  | nil => simp [List.dropWhile] at h
  | cons a t ih =>
    rw [List.dropWhile_cons] at h
    by_cases hp : p a = true
    · rw [if_pos hp] at h; exact ih h
    · rw [if_neg hp] at h
      simp only [List.head?_cons, Option.some.injEq] at h
      subst h
      simpa using hp

theorem dropWhile_of_head_fails (p : Char → Bool) (x : List Char)
    (h : ∀ c, x.head? = some c → p c = false) : x.dropWhile p = x := by
  cases x with
  | nil => rfl
  | cons a t =>
    rw [List.dropWhile_cons, if_neg (by rw [h a rfl]; simp)]

theorem dropWhile_dropWhile_same (p : Char → Bool) (l : List Char) :
    (l.dropWhile p).dropWhile p = l.dropWhile p :=
  dropWhile_of_head_fails p _ (fun c h => head_dropWhile_not p l c h)

theorem head_rev_dropWhile_rev (p : Char → Bool) (C : List Char)
    (hC : ∀ c, C.head? = some c → p c = false) :
    ∀ c, ((C.reverse.dropWhile p).reverse).head? = some c → p c = false := by
  intro c h
  rcases List.dropWhile_suffix p (l := C.reverse) with ⟨u, hu⟩
  have hC2 : (C.reverse.dropWhile p).reverse ++ u.reverse = C := by
    have := congrArg List.reverse hu
    simpa using this
  rcases hD : (C.reverse.dropWhile p).reverse with _ | ⟨d, t⟩
  · rw [hD] at h; simp at h
  · rw [hD] at h hC2
    simp only [List.head?_cons, Option.some.injEq] at h
    rw [← h]
    refine hC d ?_
    rw [← hC2]
    simp

theorem pyStrip_idem (l : List Char) : pyStrip (pyStrip l) = pyStrip l := by
  unfold pyStrip
  have hfix : ((l.dropWhile isPySpace).reverse.dropWhile isPySpace).reverse.dropWhile isPySpace
      = ((l.dropWhile isPySpace).reverse.dropWhile isPySpace).reverse :=
    dropWhile_of_head_fails isPySpace _
      (head_rev_dropWhile_rev isPySpace (l.dropWhile isPySpace)
        (fun c h => head_dropWhile_not isPySpace l c h))
  rw [hfix, List.reverse_reverse, dropWhile_dropWhile_same]

theorem pyLower_pyStrip_fix (q m : List Char) (hsub : ∀ c ∈ m, c ∈ pyLower q) :
    pyLower (pyStrip m) = pyStrip m := by
  unfold pyLower
  refine map_eq_self_of_mem _ _ (fun c hc => ?_)
  rcases List.mem_map.mp (hsub c (mem_of_mem_pyStrip m c hc)) with ⟨c0, -, rfl⟩
  exact char_toLower_idem c0

theorem mem_of_start_capture (q : String) (m : List Char) (h : start_capture q = some m) :
    ∀ c ∈ m, c ∈ pyLower q.data := by
  unfold start_capture at h
  rw [scanFirst_eq_some_iff] at h
  rcases h with ⟨i, -, hsome, -⟩
  rcases (fromToTry_drop_eq_some_iff _ i m).mp hsome with ⟨-, -, hpre, -⟩
  intro c hc
  have h1 := mem_of_mem_isPrefixOf _ _ c hpre hc
  exact List.mem_of_mem_drop (List.mem_of_mem_drop h1)

theorem mem_of_end_capture (q : String) (m : List Char) (h : end_capture q = some m) :
    ∀ c ∈ m, c ∈ pyLower q.data := by
  unfold end_capture at h
  rw [scanFirst_eq_some_iff] at h
  rcases h with ⟨i, -, hsome, -⟩
  rcases (toTry_drop_eq_some_iff _ i m).mp hsome with ⟨-, -, hpre, -⟩
  intro c hc
  have h1 := mem_of_mem_isPrefixOf _ _ c hpre hc
  exact List.mem_of_mem_drop (List.mem_of_mem_drop h1)

/-! ## Claim C8: casing of the extracted texts -/

/-- C8 (corrected): matching is case-insensitive (the extractor only looks at
the lowered query, so lowering the query first changes nothing), but the
returned texts do NOT preserve the original casing: they are lower-cased, and
trimmed of surrounding whitespace. -/
theorem claim_C8_amended (q : String) :
    extract_start_end_locations (String.mk (pyLower q.data)) = extract_start_end_locations q ∧
    (pyLower ((extract_start_end_locations q).1).data = ((extract_start_end_locations q).1).data ∧
     pyStrip ((extract_start_end_locations q).1).data = ((extract_start_end_locations q).1).data) ∧
    (∀ e, (extract_start_end_locations q).2 = some e →
      pyLower e.data = e.data ∧ pyStrip e.data = e.data) := by
  refine ⟨?_, ?_, ?_⟩
  · have h1 : start_capture (String.mk (pyLower q.data)) = start_capture q := by
      unfold start_capture
      show scanFirst fromToTry (pyLower (pyLower q.data)) = scanFirst fromToTry (pyLower q.data)
      rw [pyLower_idem]
    have h2 : end_capture (String.mk (pyLower q.data)) = end_capture q := by
      unfold end_capture
      show scanFirst toTry (pyLower (pyLower q.data)) = scanFirst toTry (pyLower q.data)
      rw [pyLower_idem]
    unfold extract_start_end_locations
    rw [h1, h2]
  · cases hs : start_capture q with
    | none =>
      unfold extract_start_end_locations
      rw [hs]
      constructor
      · show pyLower (("current location") : String).data = (("current location") : String).data
        decide
      · show pyStrip (("current location") : String).data = (("current location") : String).data
        decide
    | some m =>
      unfold extract_start_end_locations
      rw [hs]
      constructor
      · show pyLower (pyStrip m) = pyStrip m
        exact pyLower_pyStrip_fix q.data m (mem_of_start_capture q m hs)
      · show pyStrip (pyStrip m) = pyStrip m
        exact pyStrip_idem m
  · intro e he
    unfold extract_start_end_locations at he
    simp only [Option.map_eq_some'] at he
    rcases he with ⟨m, hm, rfl⟩
    constructor
    · show pyLower (pyStrip m) = pyStrip m
      exact pyLower_pyStrip_fix q.data m (mem_of_end_capture q m hm)
    · show pyStrip (pyStrip m) = pyStrip m
      exact pyStrip_idem m

/-- C8 counterexample: `"from Dallas to Austin"` yields `"dallas"`, not the
original-cased `"Dallas"`. -/
theorem claim_C8_counterexample :
    extract_start_end_locations ("from Dallas to Austin") = (("dallas"), some ("austin")) ∧
    (("dallas") : String) ≠ ("Dallas") := by
  decide

/-! ## Claim C3: normalizer disjointness -/

/-- C3 (corrected): the deduplicated waypoint list is disjoint from the
generic-location list, and the generic-location list never contains the
extracted start or end text (they are excluded by exact string match) — but
the waypoint list CAN contain the start or end text, contrary to the claim. -/
theorem claim_C3_amended (tagger : Tagger) (q : String) :
    (∀ w ∈ unique_waypoints tagger q, w ∉ normalized_locations tagger q) ∧
    ((extract_start_end_locations q).1 ∉ normalized_locations tagger q) ∧
    (∀ e, (extract_start_end_locations q).2 = some e →
      e ∉ normalized_locations tagger q) := by
  refine ⟨?_, ?_, ?_⟩
  · intro w hw hmem
    unfold unique_waypoints at hw
    rcases List.mem_filter.mp hw with ⟨-, hnc⟩
    rw [Bool.not_eq_true'] at hnc
    have hnc2 : List.elem w (normalized_locations tagger q) = false := hnc
    rw [← List.elem_iff] at hmem
    rw [hnc2] at hmem
    exact absurd hmem (by simp)
  · intro hmem
    unfold normalized_locations extract_locations at hmem
    rcases List.mem_map.mp hmem with ⟨e, he, hfst⟩
    rcases List.mem_filter.mp he with ⟨-, hcond⟩
    rw [Bool.and_eq_true] at hcond
    rcases hcond with ⟨-, hnex⟩
    rw [Bool.not_eq_true'] at hnex
    have : (excluded_texts q).contains e.1 = true := by
      rw [List.elem_iff, hfst]
      unfold excluded_texts
      exact List.mem_cons_self _ _
    rw [this] at hnex
    exact absurd hnex (by simp)
  · intro endText hend hmem
    unfold normalized_locations extract_locations at hmem
    rcases List.mem_map.mp hmem with ⟨e, he, hfst⟩
    rcases List.mem_filter.mp he with ⟨-, hcond⟩
    rw [Bool.and_eq_true] at hcond
    rcases hcond with ⟨-, hnex⟩
    rw [Bool.not_eq_true'] at hnex
    have : (excluded_texts q).contains e.1 = true := by
      rw [List.elem_iff, hfst]
      unfold excluded_texts
      refine List.mem_cons_of_mem _ ?_
      rw [hend]
      simp
    rw [this] at hnex
    exact absurd hnex (by simp)

/-- C3 counterexample: with no tagged entities, the query
`"from dallas to austin via dallas"` produces the waypoint `"dallas"`, which
is exactly the extracted start text — the waypoint list is not free of the
start text. -/
theorem claim_C3_counterexample :
    (("dallas") : String) ∈ unique_waypoints (fun _ => []) ("from dallas to austin via dallas") ∧
    (extract_start_end_locations ("from dallas to austin via dallas")).1 = ("dallas") := by
  decide

/-! ## Claim C5: the waypoint extractor -/

theorem foldl_append_eq_flatten {α β : Type} (f : α → List β) (l : List α) (init : List β) :
    l.foldl (fun acc x => acc ++ f x) init = init ++ (l.map f).flatten := by
  induction l generalizing init with
  | nil => simp
  | cons x t ih =>
    rw [List.foldl_cons, ih, List.map_cons, List.flatten_cons, List.append_assoc]

/-- C5 (confirmed): the waypoint extractor concatenates, in the fixed
pattern-list order and then match order, the trimmed comma/"and"-split pieces
of each captured list; on the scenario query it returns exactly
`["a walmart", "a coffee shop"]` in that order. -/
theorem claim_C5_theorem (q : String) :
    extract_waypoints q =
      (waypoint_patterns.map (pattern_waypoints (pyLower q.data))).flatten ∧
    extract_waypoints
        ("Plan a trip from Dallas to Austin with a stop at a Walmart and a coffee shop.") =
      [("a walmart"), ("a coffee shop")] := by
  constructor
  · unfold extract_waypoints
    have houter : ∀ (prs : List (List (List Char) × (Char → Bool))) (acc : List String),
        prs.foldl (fun acc pr =>
            (findAll (tryPrefCap pr.1 pr.2) (pyLower q.data)).foldl
              (fun acc2 m => acc2 ++ (splitCommaAnd m).map (fun p => String.mk (pyStrip p)))
              acc)
          acc
        = acc ++ (prs.map (pattern_waypoints (pyLower q.data))).flatten := by
      intro prs
      induction prs with
      | nil => intro acc; simp
      | cons pr t ih =>
        intro acc
        rw [List.foldl_cons]
        have hinner :
            (findAll (tryPrefCap pr.1 pr.2) (pyLower q.data)).foldl
              (fun acc2 m => acc2 ++ (splitCommaAnd m).map (fun p => String.mk (pyStrip p)))
              acc
            = acc ++ pattern_waypoints (pyLower q.data) pr := by
          unfold pattern_waypoints
          exact foldl_append_eq_flatten _ _ acc
        rw [hinner, ih, List.map_cons, List.flatten_cons, List.append_assoc]
    rw [houter waypoint_patterns []]
    simp
  · decide
/-! ## Claims C6 and C10: the place-search loop -/

theorem sbpGo_eq_dedup (places : List RawPlace) : ∀ (seen : List String) (n : Nat),
    1 ≤ n → (∀ p ∈ places, p.openingHours ≠ some []) →
    sbpGo seen n places =
      .ok (((dedupByKey seen (places.filter placeIsOpen)).take n).map placeSummary) := by
  induction places with
  | nil =>
    intro seen n hn hwf
    simp [sbpGo, dedupByKey]
  | cons p rest ih =>
    intro seen n hn hwf
    have hwfrest : ∀ x ∈ rest, x.openingHours ≠ some [] :=
      fun x hx => hwf x (List.mem_cons_of_mem p hx)
    have hstep : sbpGo seen n (p :: rest) =
        (match openingInfo p with
         | .error msg => .error msg
         | .ok e =>
           if entryIsOpen e = true then
             if seen.contains (uniqueKey p) = true then sbpGo seen n rest
             else if (n == 1) = true then .ok [placeSummary p]
             else (sbpGo (uniqueKey p :: seen) (n - 1) rest).map
               (fun l => placeSummary p :: l)
           else sbpGo seen n rest) := rfl
    rw [hstep]
    cases hoh : p.openingHours with
    | none =>
      rw [show openingInfo p = .ok (⟨none⟩ : OpeningEntry) by unfold openingInfo; rw [hoh]]
      have hfil : (p :: rest).filter placeIsOpen = rest.filter placeIsOpen := by
        rw [List.filter_cons, show placeIsOpen p = false by unfold placeIsOpen; rw [hoh]]
        simp
      rw [hfil]
      show sbpGo seen n rest = _
      exact ih seen n hn hwfrest
    | some l =>
      cases l with
      | nil => exact absurd hoh (hwf p (by simp))
      | cons e0 t =>
        rw [show openingInfo p = .ok e0 by unfold openingInfo; rw [hoh]]
        have hopen : placeIsOpen p = entryIsOpen e0 := by unfold placeIsOpen; rw [hoh]
        show (if entryIsOpen e0 = true then
                if seen.contains (uniqueKey p) = true then sbpGo seen n rest
                else if (n == 1) = true then .ok [placeSummary p]
                else (sbpGo (uniqueKey p :: seen) (n - 1) rest).map
                  (fun l => placeSummary p :: l)
              else sbpGo seen n rest) = _
        cases hob : entryIsOpen e0 with
        | false =>
          rw [if_neg (by simp)]
          have hfil : (p :: rest).filter placeIsOpen = rest.filter placeIsOpen := by
            rw [List.filter_cons, hopen, hob]
            simp
          rw [hfil]
          exact ih seen n hn hwfrest
        | true =>
          rw [if_pos rfl]
          have hfil : (p :: rest).filter placeIsOpen = p :: rest.filter placeIsOpen := by
            rw [List.filter_cons, hopen, hob]
            simp
          rw [hfil]
          cases hseen : seen.contains (uniqueKey p) with
          | true =>
            rw [if_pos rfl]
            have hded : dedupByKey seen (p :: rest.filter placeIsOpen)
                = dedupByKey seen (rest.filter placeIsOpen) := by
              rw [show dedupByKey seen (p :: rest.filter placeIsOpen) =
                  (if seen.contains (uniqueKey p) = true
                   then dedupByKey seen (rest.filter placeIsOpen)
                   else p :: dedupByKey (uniqueKey p :: seen) (rest.filter placeIsOpen))
                  from rfl]
              rw [if_pos hseen]
            rw [hded]
            exact ih seen n hn hwfrest
          | false =>
            rw [if_neg (by simp)]
            have hded : dedupByKey seen (p :: rest.filter placeIsOpen)
                = p :: dedupByKey (uniqueKey p :: seen) (rest.filter placeIsOpen) := by
              rw [show dedupByKey seen (p :: rest.filter placeIsOpen) =
                  (if seen.contains (uniqueKey p) = true
                   then dedupByKey seen (rest.filter placeIsOpen)
                   else p :: dedupByKey (uniqueKey p :: seen) (rest.filter placeIsOpen))
                  from rfl]
              rw [if_neg (by rw [hseen]; simp)]
            rw [hded]
            by_cases hn1 : n = 1
            · subst hn1
              rw [if_pos (by simp)]
              simp
            · rw [if_neg (by simpa using hn1)]
              have hn2 : 1 ≤ n - 1 := by omega
              rw [ih (uniqueKey p :: seen) (n - 1) hn2 hwfrest]
              have htake : (p :: dedupByKey (uniqueKey p :: seen)
                    (rest.filter placeIsOpen)).take n
                  = p :: (dedupByKey (uniqueKey p :: seen)
                    (rest.filter placeIsOpen)).take (n - 1) := by
                cases n with
                | zero => omega
                | succ m =>
                  rw [List.take_succ_cons]
                  congr 1
              rw [htake]
              simp [Except.map]

/-- C6 (corrected): with a positive limit (the default is 3) the kept list is
exactly the open candidates, deduplicated by (title, address-label) signature
in first-seen order, cut to the limit — so it has at most `limit` entries.
The claim fails for limit 0: the loop's `len == limit` break never fires
there (see the counterexample). -/
theorem claim_C6_amended (places : List RawPlace) (limit : Nat) (hl : 1 ≤ limit)
    (hwf : ∀ p ∈ places, p.openingHours ≠ some []) :
    search_best_places places limit =
      .ok (((dedupByKey [] (places.filter placeIsOpen)).take limit).map placeSummary) ∧
    ∀ out, search_best_places places limit = .ok out → out.length ≤ limit := by
  have h : search_best_places places limit =
      .ok (((dedupByKey [] (places.filter placeIsOpen)).take limit).map placeSummary) :=
    sbpGo_eq_dedup places [] limit hl hwf
  refine ⟨h, ?_⟩
  intro out hout
  have heq := h.symm.trans hout
  have hlist := Except.ok.inj heq
  rw [← hlist, List.length_map, List.length_take]
  omega

/-- C6 counterexample: with limit 0, two open, distinct candidates both
survive — the loop's `len(best_places) == limit` break can never fire, so
the "at most K" bound fails at K = 0. -/
theorem claim_C6_counterexample :
    search_best_places
      [⟨some ("A"), some ("a1"), none, none, some [⟨some true⟩]⟩,
       ⟨some ("B"), some ("b1"), none, none, some [⟨some true⟩]⟩] 0 =
      .ok [⟨some ("A"), some ("a1"), none, none⟩, ⟨some ("B"), some ("b1"), none, none⟩] ∧
    ¬ ([(⟨some ("A"), some ("a1"), none, none⟩ : PlaceSummary),
        ⟨some ("B"), some ("b1"), none, none⟩].length ≤ 0) := by
  exact ⟨rfl, by decide⟩

/-- C6 witness: one open candidate, the default limit 3. -/
theorem claim_C6_witness :
    search_best_places
      [⟨some ("A"), some ("addr"), none, none, some [⟨some true⟩]⟩] 3 =
      .ok [⟨some ("A"), some ("addr"), none, none⟩] := by
  have h := (claim_C6_amended
    ([⟨some ("A"), some ("addr"), none, none, some [⟨some true⟩]⟩]) 3
    (by omega) (by decide)).1
  rw [h]
  rfl

/-- C10 (confirmed): a candidate with no `openingHours` field is silently
skipped (treated as not open), while a present-but-empty `openingHours` list
raises `IndexError` — `search_best_places` is not total on raw collaborator
responses. -/
theorem claim_C10_theorem (p : RawPlace) (rest : List RawPlace) (limit : Nat) :
    (p.openingHours = none →
      search_best_places (p :: rest) limit = search_best_places rest limit) ∧
    (p.openingHours = some [] →
      search_best_places (p :: rest) limit = .error ("IndexError: list index out of range")) := by
  have hstep : search_best_places (p :: rest) limit =
      (match openingInfo p with
       | .error msg => .error msg
       | .ok e =>
         if entryIsOpen e = true then
           if List.contains [] (uniqueKey p) = true then sbpGo [] limit rest
           else if (limit == 1) = true then .ok [placeSummary p]
           else (sbpGo (uniqueKey p :: []) (limit - 1) rest).map
             (fun l => placeSummary p :: l)
         else sbpGo [] limit rest) := rfl
  constructor
  · intro h
    rw [hstep]
    rw [show openingInfo p = .ok (⟨none⟩ : OpeningEntry) by unfold openingInfo; rw [h]]
    show sbpGo [] limit rest = _
    rfl
  · intro h
    rw [hstep]
    rw [show openingInfo p = .error ("IndexError: list index out of range") by
      unfold openingInfo; rw [h]]

/-- C10 witness: a missing `openingHours` yields the empty result, an empty
`openingHours` list yields the error. -/
theorem claim_C10_witness :
    search_best_places [⟨some ("A"), none, none, none, none⟩] 3 = .ok [] ∧
    search_best_places [⟨some ("A"), none, none, none, some []⟩] 3 =
      .error ("IndexError: list index out of range") := by
  have h1 := (claim_C10_theorem (⟨some ("A"), none, none, none, none⟩) [] 3).1 rfl
  have h2 := (claim_C10_theorem (⟨some ("A"), none, none, none, some []⟩) [] 3).2 rfl
  exact ⟨by rw [h1]; rfl, h2⟩

/-! ## Claim C7: fallback policy and totality of the assembler -/

theorem enhancedLoop_ok (search : Searcher) (sc : Coord)
    (hwf : ∀ w la lo, ∀ p ∈ search w la lo, p.openingHours ≠ some []) :
    ∀ (wps : List String) (acc : List (String × List PlaceSummary)),
      ∃ r, enhancedLoop search sc acc wps = .ok r := by
  intro wps
  induction wps with
  | nil => intro acc; exact ⟨acc, rfl⟩
  | cons wp rest ih =>
    intro acc
    have h3 := sbpGo_eq_dedup (search wp sc.lat sc.lon) [] 3 (by omega)
      (hwf wp sc.lat sc.lon)
    have hstep : enhancedLoop search sc acc (wp :: rest) =
        (match search_best_places (search wp sc.lat sc.lon) 3 with
         | .error msg => .error msg
         | .ok best => enhancedLoop search sc
             (if best.isEmpty then acc else assocUpsert acc wp best) rest) := rfl
    rw [hstep]
    rw [show search_best_places (search wp sc.lat sc.lon) 3
        = sbpGo [] 3 (search wp sc.lat sc.lon) from rfl, h3]
    exact ih _

/-- C7 (confirmed): as long as the search collaborator returns well-formed
candidates (no present-but-empty `openingHours` — see C10), the assembler
always produces a structured result; a failed start geocode is recovered with
the default coordinates and default country code plus a diagnostic notice;
the end location is geocoded with the country code resolved for the start as
hint, and on failure receives the default coordinates. -/
theorem claim_C7_theorem (geocode : Geocoder) (search : Searcher) (route : Router)
    (tagger : Tagger) (q : String)
    (hwf : ∀ w la lo, ∀ p ∈ search w la lo, p.openingHours ≠ some []) :
    ∃ out notes, structured_output geocode search route tagger q = .ok (out, notes) ∧
      out.start_coordinates = resolved_start_coordinates geocode q ∧
      (geocode ((extract_start_end_locations q).1) none = none →
        out.start_coordinates = DEFAULT_COORDINATES ∧
        startNoticeText ((extract_start_end_locations q).1) ∈ notes ∧
        start_country_code geocode q = some DEFAULT_COUNTRY_CODE) ∧
      (∀ e, (extract_start_end_locations q).2 = some e → e ≠ "" →
        geocode e (start_country_code geocode q) = none →
        out.end_coordinates = some DEFAULT_COORDINATES) := by
  obtain ⟨enh, henh⟩ := enhancedLoop_ok search (resolved_start_coordinates geocode q) hwf
    (unique_waypoints tagger q) []
  refine ⟨⟨extract_intents q, (extract_start_end_locations q).1,
      resolved_start_coordinates geocode q, (extract_start_end_locations q).2,
      (resolved_end_pair geocode q).1, unique_waypoints tagger q, enh,
      extract_distance_constraints q, extract_time_constraints tagger q,
      resolved_route_info geocode route q⟩,
    start_notices geocode q ++ (resolved_end_pair geocode q).2, ?_, rfl, ?_, ?_⟩
  · unfold structured_output
    rw [henh]
  · intro hfail
    refine ⟨?_, ?_, ?_⟩
    · show resolved_start_coordinates geocode q = DEFAULT_COORDINATES
      unfold resolved_start_coordinates
      rw [hfail]
    · refine List.mem_append_left _ ?_
      unfold start_notices
      rw [hfail]
      simp
    · unfold start_country_code
      rw [hfail]
  · intro e he hne hfail
    show (resolved_end_pair geocode q).1 = some DEFAULT_COORDINATES
    unfold resolved_end_pair
    rw [he]
    rw [show resolved_end_geo geocode q = none by
      unfold resolved_end_geo
      rw [he]
      show (if e = "" then none else geocode e (start_country_code geocode q)) = none
      rw [if_neg hne, hfail]]
    show (if e = "" then ((none : Option Coord), ([] : List String))
          else (some DEFAULT_COORDINATES, [endNoticeText e])).1 = some DEFAULT_COORDINATES
    rw [if_neg hne]

/-- C7 witness: all collaborators fail to resolve anything, yet a structured
result with the default coordinates is produced. -/
theorem claim_C7_witness :
    ∃ out notes,
      structured_output (fun _ _ => none) (fun _ _ _ => []) (fun _ _ => none)
        (fun _ => []) ("from nowhere to elsewhere") = .ok (out, notes) ∧
      out.start_coordinates = DEFAULT_COORDINATES := by
  obtain ⟨out, notes, hok, -, himp, -⟩ :=
    claim_C7_theorem (fun _ _ => none) (fun _ _ _ => []) (fun _ _ => none)
      (fun _ => []) ("from nowhere to elsewhere")
      (fun w la lo p hp => absurd hp (List.not_mem_nil p))
  exact ⟨out, notes, hok, (himp rfl).1⟩
